import Mathlib

/-!
Shallow embedding of the resilient dispatch engine of the mcp-smart
repository (class SmartAdvisorServer): the JS `Map`-backed response cache
with TTL and LRU-adjacent eviction, the fixed-window rate limiter, the
retrying dispatcher with exponential backoff, the routing-strategy table,
the multi-advisor fan-out with its formatter, and the relevant stages of
`callTool`.  Timestamps are modelled as `Int` (JS number arithmetic on
`Date.now()` values), counters as `Nat`.  JS `Map` is modelled as an
insertion-ordered association list with `Map.get`/`Map.set`/`Map.delete`
semantics (`set` of an existing key updates in place, otherwise appends).
-/

namespace MCPSmart

/-- JS `Map.get`: first binding of the key, if any. -/
def jsGet {β : Type} (m : List (String × β)) (k : String) : Option β :=
  match m with
  | [] => none
  | (k', v) :: rest => if k' = k then some v else jsGet rest k

/-- JS `Map.set`: update the existing binding in place, else append. -/
def jsSet {β : Type} (m : List (String × β)) (k : String) (v : β) :
    List (String × β) :=
  match m with
  | [] => [(k, v)]
  | (k', v') :: rest =>
    if k' = k then (k', v) :: rest else (k', v') :: jsSet rest k v

/-- JS `Map.delete`: remove the first binding of the key. -/
def jsDelete {β : Type} (m : List (String × β)) (k : String) :
    List (String × β) :=
  match m with
  | [] => []
  | (k', v') :: rest =>
    if k' = k then rest else (k', v') :: jsDelete rest k

/-- Keys of the `MODELS` record, in object-literal order
(`deepseek`, `google`, `openai`, `router`). -/
inductive ModelKey : Type
  | deepseek
  | google
  | openai
  | router
deriving DecidableEq, Repr

/-- `Object.keys(MODELS)` in declaration order. -/
def modelKeys : List ModelKey := [.deepseek, .google, .openai, .router]

/-- The `MODELS` record: OpenRouter model ids. -/
def MODELS : ModelKey → String
  | .deepseek => "deepseek/deepseek-chat-v3-0324"
  | .google => "google/gemini-2.5-pro"
  | .openai => "openai/o3"
  | .router => "openai/gpt-4o-mini"

/-- The `MODEL_NAMES` record: human-readable provider names. -/
def MODEL_NAMES : ModelKey → String
  | .deepseek => "DeepSeek AI"
  | .google => "Google Gemini"
  | .openai => "OpenAI GPT"
  | .router => "GPT-4.1-Mini Router"

/-- The key string of a `ModelKey`, as interpolated by template literals. -/
def modelKeyStr : ModelKey → String
  | .deepseek => "deepseek"
  | .google => "google"
  | .openai => "openai"
  | .router => "router"

/-- `Object.keys(ROUTING_STRATEGIES)` in declaration order. -/
def routingStrategyKeys : List String :=
  ["auto", "intelligence", "cost", "balance", "all",
   "deepseek", "google", "openai"]

/-- `Object.keys(MODELS).filter(k => k !== 'router')`, the provider set a
single-provider dispatch is validated against in `callTool`. -/
def mainProviders : List ModelKey := modelKeys.filter (fun k => k ≠ .router)

/-- The slice of `Config` the rate limiter reads
(`rateLimitRequests`, `rateLimitWindow`). -/
structure RateLimitConfig : Type where
  rateLimitRequests : Nat
  rateLimitWindow : Int
deriving DecidableEq, Repr

/-- One entry of `rateLimitTracker`: `{ count, windowStart }`. -/
structure RateData : Type where
  count : Nat
  windowStart : Int
deriving DecidableEq, Repr

/-- The `rateLimitTracker` map. -/
abbrev RateState := List (String × RateData)

/-- `checkRateLimit(clientId = 'default')`: returns the admission decision
and the updated tracker.  Mirrors the source branch for branch: unseen
client inserts `{count: 1, windowStart: now}` and admits; a window older
than `rateLimitWindow` (strictly) is reset to `{1, now}` and admits;
`count >= rateLimitRequests` denies without mutation; otherwise the count
is incremented and the request admitted. -/
def checkRateLimit (cfg : RateLimitConfig) (now : Int) (tracker : RateState)
    (clientId : String := "default") : Bool × RateState :=
  match jsGet tracker clientId with
  | none => (true, jsSet tracker clientId ⟨1, now⟩)
  | some clientData =>
    if now - clientData.windowStart > cfg.rateLimitWindow then
      (true, jsSet tracker clientId ⟨1, now⟩)
    else if clientData.count ≥ cfg.rateLimitRequests then
      (false, tracker)
    else
      (true, jsSet tracker clientId
        ⟨clientData.count + 1, clientData.windowStart⟩)

/-- A sequence of `checkRateLimit` calls for one client at the given times;
returns how many were admitted and the final tracker. -/
def runRateRequests (cfg : RateLimitConfig) (clientId : String) :
    List Int → RateState → Nat × RateState
  | [], st => (0, st)
  | t :: ts, st =>
    let step := checkRateLimit cfg t st clientId
    let rest := runRateRequests cfg clientId ts step.2
    ((if step.1 then 1 else 0) + rest.1, rest.2)

/-- One `requestCache` entry: `{ response, timestamp, accessCount }`. -/
structure CacheEntry : Type where
  response : String
  timestamp : Int
  accessCount : Nat
deriving DecidableEq, Repr

/-- The mutable counters of `cacheMetrics` (the derived floating-point
`hitRate` field is omitted from the model). -/
structure CacheMetrics : Type where
  hits : Nat
  misses : Nat
  evictions : Nat
  totalRequests : Nat
deriving DecidableEq, Repr

/-- `requestCache` plus `cacheMetrics`. -/
structure CacheState : Type where
  requestCache : List (String × CacheEntry)
  metrics : CacheMetrics
deriving DecidableEq, Repr

/-- `getCachedResponse(key)`: bumps `totalRequests`; a present, unexpired
entry (`now - timestamp < cacheTtl`) is a hit (bump `hits` and the entry
access count) returning its response; otherwise a miss (bump `misses`),
deleting the entry if it was present but expired. -/
def getCachedResponse (ttl : Int) (now : Int) (key : String)
    (st : CacheState) : Option String × CacheState :=
  let m1 : CacheMetrics :=
    { st.metrics with totalRequests := st.metrics.totalRequests + 1 }
  match jsGet st.requestCache key with
  | some cached =>
    if now - cached.timestamp < ttl then
      (some cached.response,
       { requestCache := jsSet st.requestCache key
           { cached with accessCount := cached.accessCount + 1 },
         metrics := { m1 with hits := m1.hits + 1 } })
    else
      (none,
       { requestCache := jsDelete st.requestCache key,
         metrics := { m1 with misses := m1.misses + 1 } })
  | none =>
      (none,
       { requestCache := st.requestCache,
         metrics := { m1 with misses := m1.misses + 1 } })

/-- The scan state of `evictLeastRecentlyUsed`: `lruKey` starts `null`,
`lruTimestamp` starts `Date.now()`, `lruAccessCount` starts `Infinity`
(modelled as `none`). -/
structure LruScan : Type where
  lruKey : Option String
  lruTimestamp : Int
  lruAccessCount : Option Nat
deriving DecidableEq, Repr

/-- `a < b` where `b` may be `Infinity` (`none`). -/
def ltOptInf (a : Nat) (b : Option Nat) : Prop :=
  match b with
  | none => True
  | some x => a < x

instance (a : Nat) (b : Option Nat) : Decidable (ltOptInf a b) := by
  unfold ltOptInf
  match b with
  | none => exact inferInstanceAs (Decidable True)
  | some x => exact inferInstanceAs (Decidable (a < x))

/-- The loop body of `evictLeastRecentlyUsed`: take the entry if its
timestamp is strictly older, or equal with a strictly lower access count. -/
def lruScanStep (acc : LruScan) (kv : String × CacheEntry) : LruScan :=
  if kv.2.timestamp < acc.lruTimestamp ∨
     (kv.2.timestamp = acc.lruTimestamp ∧
      ltOptInf kv.2.accessCount acc.lruAccessCount) then
    { lruKey := some kv.1, lruTimestamp := kv.2.timestamp,
      lruAccessCount := some kv.2.accessCount }
  else acc

/-- The full scan of `evictLeastRecentlyUsed` over `requestCache.entries()`
in insertion order. -/
def findLru (now : Int) (cache : List (String × CacheEntry)) : LruScan :=
  cache.foldl lruScanStep ⟨none, now, none⟩

/-- `evictLeastRecentlyUsed()`: if the scan found a key, bump `evictions`
and delete it; otherwise do nothing. -/
def evictLeastRecentlyUsed (now : Int) (st : CacheState) : CacheState :=
  match (findLru now st.requestCache).lruKey with
  | some k =>
    { requestCache := jsDelete st.requestCache k,
      metrics := { st.metrics with evictions := st.metrics.evictions + 1 } }
  | none => st

/-- `setCachedResponse(key, response)`: evict once if
`requestCache.size >= maxCacheSize`, then insert
`{ response, timestamp: now, accessCount: 1 }`. -/
def setCachedResponse (maxCacheSize : Nat) (now : Int)
    (key response : String) (st : CacheState) : CacheState :=
  let st1 :=
    if st.requestCache.length ≥ maxCacheSize then
      evictLeastRecentlyUsed now st
    else st
  { st1 with requestCache := jsSet st1.requestCache key ⟨response, now, 1⟩ }

/-- An abstract cache operation, tagged with the `Date.now()` value at
which it runs. -/
inductive CacheOp : Type
  | putOp (now : Int) (key response : String)
  | getOp (now : Int) (key : String)
deriving DecidableEq, Repr

/-- The time at which a cache operation runs. -/
def opTime : CacheOp → Int
  | .putOp t _ _ => t
  | .getOp t _ => t

/-- Apply one cache operation to the state. -/
def applyOp (ttl : Int) (maxCacheSize : Nat) (st : CacheState) :
    CacheOp → CacheState
  | .putOp t k v => setCachedResponse maxCacheSize t k v st
  | .getOp t k => (getCachedResponse ttl t k st).2

/-- Run a sequence of cache operations. -/
def runOps (ttl : Int) (maxCacheSize : Nat) (ops : List CacheOp)
    (st : CacheState) : CacheState :=
  ops.foldl (applyOp ttl maxCacheSize) st

/-- The all-zero initial `cacheMetrics`. -/
def initialMetrics : CacheMetrics := ⟨0, 0, 0, 0⟩

/-- The initial cache state: empty map, zero metrics. -/
def initialCacheState : CacheState := ⟨[], initialMetrics⟩

/-- The outcome of one `callOpenRouter` attempt, as observed by the catch
block of `callOpenRouterWithRetry`: a resolved response, an `AxiosError`
carrying an optional HTTP response status, or any other thrown error. -/
inductive AttemptOutcome : Type
  | success (s : String)
  | axiosFailure (status : Option Nat) (message : String)
  | otherFailure (message : String)
deriving DecidableEq, Repr

/-- The client-error test of the catch block:
`error.response?.status && status >= 400 && status < 500`.
Returns the status when the failure is classified client-side. -/
def clientErrorStatus : Option Nat → Option Nat
  | some s => if 400 ≤ s ∧ s < 500 then some s else none
  | none => none

/-- The error kinds a dispatch can surface: `PROVIDER_UNAVAILABLE` (from
the documented circuit breaker), `CLIENT_ERROR`, and
`MAX_RETRIES_EXCEEDED` carrying the last underlying error message. -/
inductive DispatchError : Type
  | providerUnavailable
  | clientError (status : Nat) (message : String)
  | maxRetriesExceeded (lastMessage : Option String)
deriving DecidableEq, Repr

/-- What a run of the retry loop did: its result, the number of
`callOpenRouter` attempts actually made, and the backoff delays awaited
(milliseconds), in order. -/
structure RetryResult : Type where
  result : Except DispatchError String
  attemptsMade : Nat
  delays : List Nat
deriving Repr

/-- The loop of `callOpenRouterWithRetry`
(`for (attempt = 0; attempt < maxRetries; attempt++)`), with
`fuel = maxRetries - attempt` as the recursion measure.  A success
returns; an `AxiosError` with a 4xx status throws `CLIENT_ERROR` at once;
any other failure records the last error, waits `2^attempt * 1000` ms when
another attempt remains, and retries; an exhausted loop throws
`MAX_RETRIES_EXCEEDED` with the last error. -/
def retryLoop (maxRetries : Nat) (oracle : Nat → AttemptOutcome) :
    Nat → Nat → Option String → RetryResult
  | 0, _, lastError =>
    { result := .error (.maxRetriesExceeded lastError),
      attemptsMade := 0, delays := [] }
  | fuel + 1, attempt, _ =>
    match oracle attempt with
    | .success s => { result := .ok s, attemptsMade := 1, delays := [] }
    | .axiosFailure status msg =>
      match clientErrorStatus status with
      | some s =>
        { result := .error (.clientError s msg),
          attemptsMade := 1, delays := [] }
      | none =>
        let rest := retryLoop maxRetries oracle fuel (attempt + 1) (some msg)
        { result := rest.result, attemptsMade := rest.attemptsMade + 1,
          delays :=
            if attempt < maxRetries - 1 then
              (2 ^ attempt * 1000) :: rest.delays
            else rest.delays }
    | .otherFailure msg =>
        let rest := retryLoop maxRetries oracle fuel (attempt + 1) (some msg)
        { result := rest.result, attemptsMade := rest.attemptsMade + 1,
          delays :=
            if attempt < maxRetries - 1 then
              (2 ^ attempt * 1000) :: rest.delays
            else rest.delays }

/-- `callOpenRouterWithRetry`, with the sequence of per-attempt outcomes
supplied as an oracle (`oracle k` is what attempt number `k` would do). -/
def callOpenRouterWithRetry (maxRetries : Nat)
    (oracle : Nat → AttemptOutcome) : RetryResult :=
  retryLoop maxRetries oracle maxRetries 0 none

/-- An attempt outcome that the loop retries: a failure not classified as
a client-side (4xx) error. -/
def retryable : AttemptOutcome → Prop
  | .success _ => False
  | .axiosFailure status _ => clientErrorStatus status = none
  | .otherFailure _ => True

instance (o : AttemptOutcome) : Decidable (retryable o) := by
  unfold retryable
  match o with
  | .success _ => exact inferInstanceAs (Decidable False)
  | .axiosFailure status _ =>
    exact inferInstanceAs (Decidable (clientErrorStatus status = none))
  | .otherFailure _ => exact inferInstanceAs (Decidable True)

/-- The message recorded into `lastError` for a failed attempt. -/
def failureMessage : AttemptOutcome → String
  | .success s => s
  | .axiosFailure _ m => m
  | .otherFailure m => m

/-- Modelled from the spec: the per-provider circuit-breaker states of
section 4.4 (`CLOSED`, `OPEN`, `HALF_OPEN`).  The circuit breaker is
documented by the repository (README feature list and the
`CIRCUIT_BREAKER_*` configuration surface) but its implementation is not
among the source files; it is modelled here from the spec text. -/
inductive CircuitStateKind : Type
  | closedSt
  | openSt
  | halfOpenSt
deriving DecidableEq, Repr

/-- Modelled from the spec: the per-provider circuit-breaker record of
section 4.4 — current state, consecutive-failure counter, last
state-change timestamp, and the `HALF_OPEN` trial-call counter. -/
structure CircuitBreakerState : Type where
  state : CircuitStateKind
  consecutiveFailures : Nat
  lastTransitionTime : Int
  halfOpenCalls : Nat
deriving DecidableEq, Repr

/-- Modelled from the spec: the `RetryingDispatcher` of section 4.6 in
front of the retry loop.  "Before attempting, consults the provider's
CircuitBreaker; if `OPEN`, fails immediately with ProviderUnavailable
without an attempt or retry", and "Once
`now - lastTransitionTime >= recoveryTimeout`, the breaker transitions to
`HALF_OPEN`" after which trial calls are allowed through. -/
def dispatchWithBreaker (recoveryTimeout : Int) (maxRetries : Nat)
    (now : Int) (cb : CircuitBreakerState)
    (oracle : Nat → AttemptOutcome) : RetryResult :=
  match cb.state with
  | .openSt =>
    if now - cb.lastTransitionTime ≥ recoveryTimeout then
      callOpenRouterWithRetry maxRetries oracle
    else
      { result := .error .providerUnavailable,
        attemptsMade := 0, delays := [] }
  | _ => callOpenRouterWithRetry maxRetries oracle

/-- JS `String.prototype.repeat`. -/
def repeatStr (s : String) (n : Nat) : String :=
  String.join (List.replicate n s)

/-- One element of the `results` array built by `consultAllAdvisors`
(the wall-clock `duration` field is outside the model). -/
structure AdvisorResult : Type where
  model : ModelKey
  response : Option String
  error : Option String
  success : Bool
deriving DecidableEq, Repr

/-- The element the fan-out's map callback builds for one model key:
success with the response, or failure with the error message. -/
def advisorResultFor (outcomes : ModelKey → Except String String)
    (mk : ModelKey) : AdvisorResult :=
  match outcomes mk with
  | .ok r => ⟨mk, some r, none, true⟩
  | .error e => ⟨mk, none, some e, false⟩

/-- The `results` array of `consultAllAdvisors`: one entry per key of
`MODELS` (all four, `router` included), successful when the per-model
dispatch resolved, failed with its error message otherwise. -/
def advisorResults (outcomes : ModelKey → Except String String) :
    List AdvisorResult :=
  modelKeys.map (advisorResultFor outcomes)

/-- The `'‚ïê'.repeat(80)` divider (the source file stores
its emoji double-encoded; the literals here reproduce its exact
characters). -/
def dividerStr : String := repeatStr "‚ïê" 80

/-- The fixed header template of `formatMultiAdvisorResponse`. -/
def fanoutHeader : String :=
  "# üéØ Multi-Advisor Consultation Results\n\n**What you\x27re seeing:** Three experienced AI advisors have independently analyzed your request. Consider their perspectives to find the most practical and efficient solution.\n\n"

/-- The synthesis template appended when more than one advisor
succeeded. -/
def synthesisBlock (successCount : Nat) : String :=
  dividerStr ++ "\n## üéØ **Synthesis & Next Steps**\n"
    ++ dividerStr
    ++ "\n\n**You now have " ++ toString successCount
    ++ " expert perspectives.** Here\x27s how to proceed:\n\n1. **Compare Approaches:** Look for common themes and fundamental differences between the advisors\n2. **Identify Best Practices:** Note which advisor provides the most actionable, maintainable solution\n3. **Consider Trade-offs:** Each advisor may emphasize different aspects (performance, simplicity, scalability)\n4. **Choose Your Path:** Select the approach that best fits your project\x27s constraints and goals\n5. **Implement Iteratively:** Start with the core solution and incorporate refinements from other advisors\n\n**Remember:** The best solution often combines insights from multiple perspectives. Consider what each advisor got right and adapt accordingly.\n"

/-- `formatMultiAdvisorResponse(results)`: header; a note naming (only
naming) the failed advisors when any failed; one divider block per
successful advisor with its response; a synthesis section when more than
one succeeded. -/
def formatMultiAdvisorResponse (results : List AdvisorResult) : String :=
  let successfulResults := results.filter (fun r => r.success)
  let failedResults := results.filter (fun r => !r.success)
  let formatted := fanoutHeader
  let formatted :=
    if failedResults.length > 0 then
      formatted ++ "‚ö†Ô∏è  **Note:** "
        ++ toString failedResults.length
        ++ " advisor(s) encountered errors: "
        ++ String.intercalate ", "
            (failedResults.map (fun r => MODEL_NAMES r.model))
        ++ "\n\n"
    else formatted
  let formatted := successfulResults.foldl
    (fun acc result =>
      acc ++ dividerStr ++ "\n## ü§ñ **"
        ++ MODEL_NAMES result.model ++ " Advisor** ("
        ++ modelKeyStr result.model ++ ")\n" ++ dividerStr ++ "\n\n"
        ++ (match result.response with
            | some r => r
            | none => "undefined")
        ++ "\n\n")
    formatted
  if successfulResults.length > 1 then
    formatted ++ synthesisBlock successfulResults.length
  else formatted

/-- The machine-readable error kinds `callTool` can throw
(`SmartAdvisorError` codes). -/
inductive ToolError : Type
  | rateLimitExceeded
  | unknownTool (name : String)
  | invalidInput (message : String)
  | unknownStrategy (strategy : String)
  | invalidProvider (provider : String)
  | dispatchFailed (e : DispatchError)
deriving DecidableEq, Repr

/-- The single-provider cache key of `callTool`:
`` `${selectedProvider}:${sanitizedTask}:${sanitizedContext}` ``. -/
def singleCacheKey (provider : ModelKey) (task context : String) : String :=
  modelKeyStr provider ++ ":" ++ task ++ ":" ++ context

/-- The fan-out cache key of `consultAllAdvisors`:
`` `all:${task}:${context}:${toolName}` ``. -/
def fanoutCacheKey (task context toolName : String) : String :=
  "all:" ++ task ++ ":" ++ context ++ ":" ++ toolName

/-- `consultAllAdvisors(task, context, toolName)`, with the settled
per-model dispatch outcomes supplied as an oracle.  Returns the cached
text on a hit; otherwise formats all four models' outcomes, caches the
formatted text, and returns it.  The function has no failure path: it
always returns `.ok`. -/
def consultAllAdvisors (ttl : Int) (maxCacheSize : Nat) (now : Int)
    (task context toolName : String)
    (outcomes : ModelKey → Except String String) (st : CacheState) :
    Except ToolError String × CacheState :=
  let key := fanoutCacheKey task context toolName
  match getCachedResponse ttl now key st with
  | (some cached, st1) => (.ok cached, st1)
  | (none, st1) =>
    let formatted := formatMultiAdvisorResponse (advisorResults outcomes)
    (.ok formatted, setCachedResponse maxCacheSize now key formatted st1)

/-- The routing-strategy validation of `callTool`:
`Object.keys(ROUTING_STRATEGIES).includes(model)` or throw
`UNKNOWN_STRATEGY`. -/
def routingStrategyCheck (model : String) : Except ToolError Unit :=
  if routingStrategyKeys.contains model then .ok ()
  else .error (.unknownStrategy model)

/-- The rate-limiting stage of `callTool`: the source calls
`this.checkRateLimit()` with no argument, so the default `'default'`
client id is used for every inbound invocation, whatever the tool name
and arguments of the call. -/
def callToolRateCheck (cfg : RateLimitConfig) (now : Int)
    (toolName : String) (tracker : RateState) : Bool × RateState :=
  checkRateLimit cfg now tracker

/-- The dispatch-and-cache stage of `callTool` for a resolved single
provider (the `cacheKey` is `singleCacheKey`): return a cache hit as-is;
on a miss, a successful dispatch is cached and returned, a failed
dispatch is rethrown and nothing is written to the cache. -/
def callToolDispatchStage (ttl : Int) (maxCacheSize : Nat) (now : Int)
    (cacheKey : String) (outcome : Except DispatchError String)
    (st : CacheState) : Except ToolError String × CacheState :=
  match getCachedResponse ttl now cacheKey st with
  | (some cached, st1) => (.ok cached, st1)
  | (none, st1) =>
    match outcome with
    | .ok response =>
      (.ok response, setCachedResponse maxCacheSize now cacheKey response st1)
    | .error e => (.error (.dispatchFailed e), st1)

lemma jsGet_nil {β : Type} (k : String) :
    jsGet ([] : List (String × β)) k = none := rfl

lemma jsGet_cons {β : Type} (a : String) (b : β) (tl : List (String × β))
    (k : String) :
    jsGet ((a, b) :: tl) k = if a = k then some b else jsGet tl k := rfl

lemma jsSet_nil {β : Type} (k : String) (v : β) :
    jsSet ([] : List (String × β)) k v = [(k, v)] := rfl

lemma jsSet_cons {β : Type} (a : String) (b : β) (tl : List (String × β))
    (k : String) (v : β) :
    jsSet ((a, b) :: tl) k v =
      if a = k then (a, v) :: tl else (a, b) :: jsSet tl k v := rfl

lemma jsDelete_cons {β : Type} (a : String) (b : β)
    (tl : List (String × β)) (k : String) :
    jsDelete ((a, b) :: tl) k =
      if a = k then tl else (a, b) :: jsDelete tl k := rfl

lemma jsGet_jsSet_self {β : Type} (m : List (String × β)) (k : String)
    (v : β) : jsGet (jsSet m k v) k = some v := by
  induction m with
  | nil => rw [jsSet_nil, jsGet_cons, if_pos rfl]
  | cons hd tl ih =>
    obtain ⟨a, b⟩ := hd
    rw [jsSet_cons]
    by_cases h : a = k
    · rw [if_pos h, jsGet_cons, if_pos h]
    · rw [if_neg h, jsGet_cons, if_neg h, ih]

lemma jsGet_jsSet_ne {β : Type} (m : List (String × β)) (k k' : String)
    (v : β) (hne : k' ≠ k) : jsGet (jsSet m k v) k' = jsGet m k' := by
  induction m with
  | nil => rw [jsSet_nil, jsGet_cons, if_neg (Ne.symm hne), jsGet_nil]
  | cons hd tl ih =>
    obtain ⟨a, b⟩ := hd
    rw [jsSet_cons]
    by_cases h : a = k
    · have h' : a ≠ k' := by rw [h]; exact Ne.symm hne
      rw [if_pos h, jsGet_cons, jsGet_cons, if_neg h', if_neg h']
    · rw [if_neg h, jsGet_cons, jsGet_cons, ih]

lemma length_jsSet_le {β : Type} (m : List (String × β)) (k : String)
    (v : β) : (jsSet m k v).length ≤ m.length + 1 := by
  induction m with
  | nil => rw [jsSet_nil]; simp
  | cons hd tl ih =>
    obtain ⟨a, b⟩ := hd
    rw [jsSet_cons]
    by_cases h : a = k
    · rw [if_pos h]; simp
    · rw [if_neg h]
      simp only [List.length_cons]
      omega

lemma length_jsDelete_of_get {β : Type} (m : List (String × β))
    (k : String) (v : β) (h : jsGet m k = some v) :
    (jsDelete m k).length + 1 = m.length := by
  induction m with
  | nil => rw [jsGet_nil] at h; cases h
  | cons hd tl ih =>
    obtain ⟨a, b⟩ := hd
    rw [jsGet_cons] at h
    rw [jsDelete_cons]
    by_cases hk : a = k
    · rw [if_pos hk]; rfl
    · rw [if_neg hk] at h
      rw [if_neg hk]
      simp only [List.length_cons]
      have := ih h
      omega

lemma mem_jsSet {β : Type} (m : List (String × β)) (k : String) (v : β)
    (kv : String × β) (h : kv ∈ jsSet m k v) : kv.2 = v ∨ kv ∈ m := by
  induction m with
  | nil =>
    rw [jsSet_nil, List.mem_singleton] at h
    left; rw [h]
  | cons hd tl ih =>
    obtain ⟨a, b⟩ := hd
    rw [jsSet_cons] at h
    by_cases hk : a = k
    · rw [if_pos hk] at h
      rcases List.mem_cons.mp h with h1 | h1
      · left; rw [h1]
      · right; exact List.mem_cons_of_mem _ h1
    · rw [if_neg hk] at h
      rcases List.mem_cons.mp h with h1 | h1
      · right; rw [h1]; exact List.mem_cons_self _ _
      · rcases ih h1 with h2 | h2
        · left; exact h2
        · right; exact List.mem_cons_of_mem _ h2

lemma mem_jsDelete {β : Type} (m : List (String × β)) (k : String)
    (kv : String × β) (h : kv ∈ jsDelete m k) : kv ∈ m := by
  induction m with
  | nil => exact absurd h (by rw [show jsDelete ([] : List (String × β)) k = [] from rfl]; simp)
  | cons hd tl ih =>
    obtain ⟨a, b⟩ := hd
    rw [jsDelete_cons] at h
    by_cases hk : a = k
    · rw [if_pos hk] at h
      exact List.mem_cons_of_mem _ h
    · rw [if_neg hk] at h
      rcases List.mem_cons.mp h with h1 | h1
      · rw [h1]; exact List.mem_cons_self _ _
      · exact List.mem_cons_of_mem _ (ih h1)

lemma jsGet_isSome_of_mem {β : Type} (m : List (String × β)) (k : String)
    (e : β) (h : (k, e) ∈ m) : ∃ e', jsGet m k = some e' := by
  induction m with
  | nil => simp at h
  | cons hd tl ih =>
    obtain ⟨a, b⟩ := hd
    by_cases hk : a = k
    · exact ⟨b, by rw [jsGet_cons, if_pos hk]⟩
    · rcases List.mem_cons.mp h with h' | h'
      · exact absurd (congrArg Prod.fst h'.symm) hk
      · rcases ih h' with ⟨e', he'⟩
        exact ⟨e', by rw [jsGet_cons, if_neg hk, he']⟩

lemma jsGet_eq_none_of_not_mem {β : Type} (m : List (String × β))
    (k : String) (h : k ∉ m.map Prod.fst) : jsGet m k = none := by
  induction m with
  | nil => rfl
  | cons hd tl ih =>
    obtain ⟨a, b⟩ := hd
    simp only [List.map_cons, List.mem_cons] at h
    push_neg at h
    have ha : a ≠ k := fun hx => h.1 hx.symm
    rw [jsGet_cons, if_neg ha, ih h.2]

lemma jsGet_jsDelete_self {β : Type} (m : List (String × β)) (k : String)
    (hnd : (m.map Prod.fst).Nodup) : jsGet (jsDelete m k) k = none := by
  induction m with
  | nil => rfl
  | cons hd tl ih =>
    obtain ⟨a, b⟩ := hd
    simp only [List.map_cons, List.nodup_cons] at hnd
    rw [jsDelete_cons]
    by_cases hk : a = k
    · rw [if_pos hk]
      exact jsGet_eq_none_of_not_mem tl k (hk ▸ hnd.1)
    · rw [if_neg hk, jsGet_cons, if_neg hk, ih hnd.2]

/-- Lexicographic order on (createdAt timestamp, access count): the
eviction preference order of `evictLeastRecentlyUsed`. -/
def entryLexLE (a b : Int × Nat) : Prop :=
  a.1 < b.1 ∨ (a.1 = b.1 ∧ a.2 ≤ b.2)

lemma entryLexLE_refl (a : Int × Nat) : entryLexLE a a :=
  Or.inr ⟨rfl, le_refl _⟩

lemma entryLexLE_trans {a b c : Int × Nat} (hab : entryLexLE a b)
    (hbc : entryLexLE b c) : entryLexLE a c := by
  unfold entryLexLE at *
  rcases hab with h1 | ⟨h1, h1'⟩ <;> rcases hbc with h2 | ⟨h2, h2'⟩
  · left; omega
  · left; omega
  · left; omega
  · right; exact ⟨h1.trans h2, h1'.trans h2'⟩

/-- C1 (spec-modelled): while a provider's circuit breaker is `OPEN` and
the recovery timeout has not yet elapsed, a dispatch to that provider
fails immediately with the ProviderUnavailable error kind, performing no
HTTP attempt and no retry (zero attempts, zero backoff delays). -/
theorem open_breaker_fails_fast_without_attempt (recoveryTimeout : Int)
    (maxRetries : Nat) (now : Int) (cb : CircuitBreakerState)
    (oracle : Nat → AttemptOutcome)
    (hopen : cb.state = CircuitStateKind.openSt)
    (hwait : now - cb.lastTransitionTime < recoveryTimeout) :
    dispatchWithBreaker recoveryTimeout maxRetries now cb oracle =
      { result := Except.error DispatchError.providerUnavailable,
        attemptsMade := 0, delays := [] } := by
  unfold dispatchWithBreaker
  rw [hopen]
  rw [if_neg (not_le.mpr hwait)]

/-- Witness for C1: a breaker opened at time 100, consulted at time 150
with a 60000 recovery timeout, rejects without attempting even though the
provider would answer. -/
theorem open_breaker_fails_fast_witness :
    dispatchWithBreaker 60000 3 150
      ⟨CircuitStateKind.openSt, 5, 100, 0⟩ (fun _ => .success "ok") =
      { result := Except.error DispatchError.providerUnavailable,
        attemptsMade := 0, delays := [] } :=
  open_breaker_fails_fast_without_attempt 60000 3 150
    ⟨CircuitStateKind.openSt, 5, 100, 0⟩ (fun _ => .success "ok")
    rfl (by decide)

/-- C2: the claim fails on the code.  `consultAllAdvisors` maps over every
key of `MODELS` — `router` included — so under the "all" strategy the
auxiliary routing model is dispatched for an end-user answer; the
single-provider path does exclude `router` via `mainProviders`. -/
theorem fanout_dispatches_router :
    ((advisorResults (fun _ => Except.ok "answer")).map
        (fun r => r.model)) = modelKeys
    ∧ ModelKey.router ∈ modelKeys
    ∧ ModelKey.router ∉ mainProviders := by
  refine ⟨rfl, by decide, by decide⟩

/-- C4: the claim fails on the code.  `"random"` is not among
`Object.keys(ROUTING_STRATEGIES)`, so `callTool` rejects it with the
`UNKNOWN_STRATEGY` error instead of resolving it to a uniformly random
dispatchable provider (the repository's own README and integration tests
advertise and expect a working `random` strategy). -/
theorem random_strategy_rejected_as_unknown :
    routingStrategyCheck "random" =
      Except.error (ToolError.unknownStrategy "random")
    ∧ routingStrategyKeys.contains "random" = false := by
  exact ⟨rfl, rfl⟩

/-- The result the loop halts with at a given attempt, if that attempt
halts it: a success returns it, a 4xx `AxiosError` throws `CLIENT_ERROR`;
retryable failures do not halt. -/
def haltingResult : AttemptOutcome → Option (Except DispatchError String)
  | .success s => some (.ok s)
  | .axiosFailure status msg =>
    match clientErrorStatus status with
    | some s => some (.error (.clientError s msg))
    | none => none
  | .otherFailure _ => none

lemma retryLoop_attempts_le (mr : Nat) (oracle : Nat → AttemptOutcome) :
    ∀ (fuel attempt : Nat) (lastE : Option String),
      (retryLoop mr oracle fuel attempt lastE).attemptsMade ≤ fuel := by
  intro fuel
  induction fuel with
  | zero => intro attempt lastE; simp [retryLoop]
  | succ n ih =>
    intro attempt lastE
    simp only [retryLoop]
    cases h : oracle attempt with
    | success s => simp
    | axiosFailure status msg =>
      cases hc : clientErrorStatus status with
      | some s => simp [hc]
      | none =>
        have := ih (attempt + 1) (some msg)
        simp only [hc]
        omega
    | otherFailure msg =>
      have := ih (attempt + 1) (some msg)
      simp only
      omega

lemma cons_map_range_shift (f : Nat → Nat) (attempt n : Nat) :
    f attempt :: (List.range n).map (fun j => f ((attempt + 1) + j)) =
      (List.range (n + 1)).map (fun j => f (attempt + j)) := by
  rw [List.range_succ_eq_map, List.map_cons, List.map_map]
  have hf : ((fun j => f (attempt + j)) ∘ Nat.succ) =
      fun j => f ((attempt + 1) + j) := by
    funext j
    simp only [Function.comp_apply]
    congr 1
    omega
  rw [hf]
  simp

/-- After `k` retryable failures the loop reaches attempt `attempt + k`;
if that attempt halts it (success or client error), the loop returns that
result having made `k + 1` attempts and waited the exponential-backoff
delays of the first `k` attempt indices. -/
lemma retryLoop_halts (mr : Nat) (oracle : Nat → AttemptOutcome) :
    ∀ (k fuel attempt : Nat) (lastE : Option String)
      (res : Except DispatchError String),
      haltingResult (oracle (attempt + k)) = some res →
      (∀ j, j < k → retryable (oracle (attempt + j))) →
      k < fuel → attempt + k < mr →
      retryLoop mr oracle fuel attempt lastE =
        { result := res, attemptsMade := k + 1,
          delays := (List.range k).map (fun j => 2 ^ (attempt + j) * 1000) } := by
  intro k
  induction k with
  | zero =>
    intro fuel attempt lastE res hres _ hfuel _
    obtain ⟨f, rfl⟩ : ∃ f, fuel = f + 1 := ⟨fuel - 1, by omega⟩
    rw [Nat.add_zero] at hres
    simp only [retryLoop]
    cases ho : oracle attempt with
    | success s =>
      rw [ho] at hres
      simp only [haltingResult, Option.some.injEq] at hres
      simp [hres]
    | axiosFailure status msg =>
      rw [ho] at hres
      cases hc : clientErrorStatus status with
      | some s =>
        simp only [haltingResult, hc, Option.some.injEq] at hres
        simp [hc, hres]
      | none =>
        simp only [haltingResult, hc] at hres
        exact Option.noConfusion hres
    | otherFailure msg =>
      rw [ho] at hres
      simp only [haltingResult] at hres
      exact Option.noConfusion hres
  | succ n ih =>
    intro fuel attempt lastE res hres hretry hfuel hmr
    obtain ⟨f, rfl⟩ : ∃ f, fuel = f + 1 := ⟨fuel - 1, by omega⟩
    have h0 : retryable (oracle attempt) := by
      have := hretry 0 (by omega)
      rwa [Nat.add_zero] at this
    have hshift : attempt + (n + 1) = (attempt + 1) + n := by omega
    have hres' : haltingResult (oracle ((attempt + 1) + n)) = some res := by
      rw [← hshift]; exact hres
    have hretry' : ∀ j, j < n → retryable (oracle ((attempt + 1) + j)) := by
      intro j hj
      have := hretry (j + 1) (by omega)
      have heq : attempt + (j + 1) = (attempt + 1) + j := by omega
      rwa [heq] at this
    have hrec := ih f (attempt + 1) (some (failureMessage (oracle attempt)))
      res hres' hretry' (by omega) (by omega)
    have hguard : attempt < mr - 1 := by omega
    have hdelays :
        (2 ^ attempt * 1000) ::
          (List.range n).map (fun j => 2 ^ ((attempt + 1) + j) * 1000) =
        (List.range (n + 1)).map (fun j => 2 ^ (attempt + j) * 1000) :=
      cons_map_range_shift (fun j => 2 ^ j * 1000) attempt n
    cases ho : oracle attempt with
    | success s => rw [ho] at h0; exact absurd h0 (by simp [retryable])
    | axiosFailure status msg =>
      rw [ho] at h0
      have hc : clientErrorStatus status = none := h0
      have hmsg : failureMessage (oracle attempt) = msg := by
        rw [ho]; rfl
      rw [hmsg] at hrec
      simp only [retryLoop, ho, hc, hrec]
      rw [if_pos hguard]
      simp only [hdelays]
    | otherFailure msg =>
      have hmsg : failureMessage (oracle attempt) = msg := by
        rw [ho]; rfl
      rw [hmsg] at hrec
      simp only [retryLoop, ho, hrec]
      rw [if_pos hguard]
      simp only [hdelays]

/-- An exhausted loop: every remaining attempt fails retryably, so the
loop makes all of them and throws `MAX_RETRIES_EXCEEDED` carrying the
message of the last failure. -/
lemma retryLoop_exhausts (mr : Nat) (oracle : Nat → AttemptOutcome) :
    ∀ (fuel attempt : Nat) (lastE : Option String),
      (∀ j, j < fuel → retryable (oracle (attempt + j))) →
      (retryLoop mr oracle fuel attempt lastE).result =
        Except.error (DispatchError.maxRetriesExceeded
          (if fuel = 0 then lastE
           else some (failureMessage (oracle (attempt + fuel - 1)))))
      ∧ (retryLoop mr oracle fuel attempt lastE).attemptsMade = fuel := by
  intro fuel
  induction fuel with
  | zero =>
    intro attempt lastE _
    simp [retryLoop]
  | succ n ih =>
    intro attempt lastE hretry
    have h0 : retryable (oracle attempt) := by
      have := hretry 0 (by omega)
      rwa [Nat.add_zero] at this
    have hretry' : ∀ j, j < n → retryable (oracle ((attempt + 1) + j)) := by
      intro j hj
      have := hretry (j + 1) (by omega)
      have heq : attempt + (j + 1) = (attempt + 1) + j := by omega
      rwa [heq] at this
    have hlast :
        (if n = 0 then some (failureMessage (oracle attempt))
         else some (failureMessage (oracle ((attempt + 1) + n - 1)))) =
        some (failureMessage (oracle (attempt + (n + 1) - 1))) := by
      by_cases hn : n = 0
      · subst hn
        rw [if_pos rfl]
        have hidx : attempt + (0 + 1) - 1 = attempt := by omega
        rw [hidx]
      · rw [if_neg hn]
        have hidx : (attempt + 1) + n - 1 = attempt + (n + 1) - 1 := by omega
        rw [hidx]
    have hsuccne : n + 1 ≠ 0 := Nat.succ_ne_zero n
    cases ho : oracle attempt with
    | success s => rw [ho] at h0; exact absurd h0 (by simp [retryable])
    | axiosFailure status msg =>
      rw [ho] at h0
      have hc : clientErrorStatus status = none := h0
      have hrec := ih (attempt + 1) (some (failureMessage (oracle attempt)))
        hretry'
      have hmsg : failureMessage (oracle attempt) = msg := by
        rw [ho]; rfl
      rw [hmsg] at hrec
      constructor
      · simp only [retryLoop, ho, hc]
        rw [hrec.1, if_neg hsuccne, ← hlast, hmsg]
      · simp only [retryLoop, ho, hc]
        omega
    | otherFailure msg =>
      have hrec := ih (attempt + 1) (some (failureMessage (oracle attempt)))
        hretry'
      have hmsg : failureMessage (oracle attempt) = msg := by
        rw [ho]; rfl
      rw [hmsg] at hrec
      constructor
      · simp only [retryLoop, ho]
        rw [hrec.1, if_neg hsuccne, ← hlast, hmsg]
      · simp only [retryLoop, ho]
        omega

/-- C5: the retrying dispatcher makes at most `maxRetries` attempts; a
success after `k` retryable failures is returned after exactly `k + 1`
attempts with backoff delays `2^0·1000, …, 2^(k-1)·1000` ms; an attempt
failing with an HTTP 4xx status surfaces immediately as a
`CLIENT_ERROR`-kind error with no further attempt; and `maxRetries`
consecutive retryable failures surface as `MAX_RETRIES_EXCEEDED` carrying
the last underlying error message. -/
theorem retrying_dispatcher_spec (mr : Nat) (oracle : Nat → AttemptOutcome) :
    (callOpenRouterWithRetry mr oracle).attemptsMade ≤ mr
    ∧ (∀ k s, k < mr → oracle k = AttemptOutcome.success s →
        (∀ j, j < k → retryable (oracle j)) →
        callOpenRouterWithRetry mr oracle =
          { result := Except.ok s, attemptsMade := k + 1,
            delays := (List.range k).map (fun j => 2 ^ j * 1000) })
    ∧ (∀ k status msg s, k < mr →
        oracle k = AttemptOutcome.axiosFailure status msg →
        clientErrorStatus status = some s →
        (∀ j, j < k → retryable (oracle j)) →
        callOpenRouterWithRetry mr oracle =
          { result := Except.error (DispatchError.clientError s msg),
            attemptsMade := k + 1,
            delays := (List.range k).map (fun j => 2 ^ j * 1000) })
    ∧ ((∀ j, j < mr → retryable (oracle j)) → 0 < mr →
        (callOpenRouterWithRetry mr oracle).result =
          Except.error (DispatchError.maxRetriesExceeded
            (some (failureMessage (oracle (mr - 1)))))
        ∧ (callOpenRouterWithRetry mr oracle).attemptsMade = mr) := by
  refine ⟨retryLoop_attempts_le mr oracle mr 0 none, ?_, ?_, ?_⟩
  · intro k s hk hsucc hretry
    have := retryLoop_halts mr oracle k mr 0 none (Except.ok s)
      (by rw [Nat.zero_add, hsucc]; rfl)
      (by intro j hj; rw [Nat.zero_add]; exact hretry j hj)
      hk (by omega)
    unfold callOpenRouterWithRetry
    rw [this]
    simp
  · intro k status msg s hk hfail hstatus hretry
    have := retryLoop_halts mr oracle k mr 0 none
      (Except.error (DispatchError.clientError s msg))
      (by rw [Nat.zero_add, hfail]; simp [haltingResult, hstatus])
      (by intro j hj; rw [Nat.zero_add]; exact hretry j hj)
      hk (by omega)
    unfold callOpenRouterWithRetry
    rw [this]
    simp
  · intro hretry hmr
    have := retryLoop_exhausts mr oracle mr 0 none
      (by intro j hj; rw [Nat.zero_add]; exact hretry j hj)
    unfold callOpenRouterWithRetry
    refine ⟨?_, this.2⟩
    rw [this.1, if_neg (by omega)]
    norm_num

/-- An attempt sequence with two transient failures then a success. -/
def exOracleSucc : Nat → AttemptOutcome := fun k =>
  if k < 2 then .otherFailure "socket hang up" else .success "yay"

/-- An attempt sequence with one transient failure then an HTTP 404. -/
def exOracleClient : Nat → AttemptOutcome := fun k =>
  if k = 0 then .otherFailure "socket hang up"
  else .axiosFailure (some 404) "Not Found"

/-- An attempt sequence that always fails transiently. -/
def exOracleFail : Nat → AttemptOutcome := fun _ =>
  .otherFailure "ETIMEDOUT"

/-- Witness for C5: with `maxRetries = 3`, two transient failures then a
success yield the success after 3 attempts with delays 1000 and 2000 ms; a
404 after one transient failure yields `CLIENT_ERROR` on attempt 2; three
transient failures yield `MAX_RETRIES_EXCEEDED` with the last message. -/
theorem retrying_dispatcher_spec_witness :
    callOpenRouterWithRetry 3 exOracleSucc =
      { result := Except.ok "yay", attemptsMade := 3,
        delays := [1000, 2000] }
    ∧ callOpenRouterWithRetry 3 exOracleClient =
      { result := Except.error (DispatchError.clientError 404 "Not Found"),
        attemptsMade := 2, delays := [1000] }
    ∧ (callOpenRouterWithRetry 3 exOracleFail).result =
        Except.error (DispatchError.maxRetriesExceeded (some "ETIMEDOUT"))
    ∧ (callOpenRouterWithRetry 3 exOracleFail).attemptsMade = 3 := by
  refine ⟨?_, ?_, ?_⟩
  · have := (retrying_dispatcher_spec 3 exOracleSucc).2.1 2 "yay"
      (by omega) rfl (by decide)
    rw [this]; rfl
  · have := (retrying_dispatcher_spec 3 exOracleClient).2.2.1 1 (some 404)
      "Not Found" 404 (by omega) rfl rfl (by decide)
    rw [this]; rfl
  · have := (retrying_dispatcher_spec 3 exOracleFail).2.2.2
      (by intro j hj; exact trivial) (by omega)
    exact ⟨this.1, this.2⟩

lemma foldl_lruScan_from_some (cache : List (String × CacheEntry)) :
    ∀ (k : String) (ts : Int) (ac : Nat),
      ∃ k' ts' ac',
        cache.foldl lruScanStep ⟨some k, ts, some ac⟩ =
          ⟨some k', ts', some ac'⟩
        ∧ ((k' = k ∧ ts' = ts ∧ ac' = ac) ∨
            ∃ e, (k', e) ∈ cache ∧ e.timestamp = ts' ∧ e.accessCount = ac')
        ∧ entryLexLE (ts', ac') (ts, ac)
        ∧ ∀ kv ∈ cache,
            entryLexLE (ts', ac') (kv.2.timestamp, kv.2.accessCount) := by
  induction cache with
  | nil =>
    intro k ts ac
    exact ⟨k, ts, ac, rfl, Or.inl ⟨rfl, rfl, rfl⟩,
      entryLexLE_refl _, by simp⟩
  | cons hd tl ih =>
    intro k ts ac
    rw [List.foldl_cons]
    by_cases hcond : hd.2.timestamp < ts ∨
        (hd.2.timestamp = ts ∧ ltOptInf hd.2.accessCount (some ac))
    · have hstep : lruScanStep ⟨some k, ts, some ac⟩ hd =
          ⟨some hd.1, hd.2.timestamp, some hd.2.accessCount⟩ := by
        unfold lruScanStep
        rw [if_pos hcond]
      rw [hstep]
      obtain ⟨k', ts', ac', heq, hprov, hle, hall⟩ :=
        ih hd.1 hd.2.timestamp hd.2.accessCount
      have hhd : entryLexLE (hd.2.timestamp, hd.2.accessCount) (ts, ac) := by
        rcases hcond with h | ⟨h1, h2⟩
        · exact Or.inl h
        · exact Or.inr ⟨h1, le_of_lt h2⟩
      refine ⟨k', ts', ac', heq, ?_, entryLexLE_trans hle hhd, ?_⟩
      · rcases hprov with ⟨hk, hts, hac⟩ | ⟨e, hmem, hets, heac⟩
        · right
          refine ⟨hd.2, ?_, hts.symm, hac.symm⟩
          rw [hk]
          exact List.mem_cons_self _ _
        · right
          exact ⟨e, List.mem_cons_of_mem _ hmem, hets, heac⟩
      · intro kv hkv
        rcases List.mem_cons.mp hkv with h | h
        · rw [h]; exact hle
        · exact hall kv h
    · have hstep : lruScanStep ⟨some k, ts, some ac⟩ hd =
          ⟨some k, ts, some ac⟩ := by
        unfold lruScanStep
        rw [if_neg hcond]
      rw [hstep]
      obtain ⟨k', ts', ac', heq, hprov, hle, hall⟩ := ih k ts ac
      have hhd : entryLexLE (ts, ac) (hd.2.timestamp, hd.2.accessCount) := by
        push_neg at hcond
        rcases lt_or_eq_of_le hcond.1 with h | h
        · exact Or.inl h
        · refine Or.inr ⟨h, ?_⟩
          have hnlt := hcond.2 h.symm
          unfold ltOptInf at hnlt
          omega
      refine ⟨k', ts', ac', heq, ?_, hle, ?_⟩
      · rcases hprov with hsame | ⟨e, hmem, hets, heac⟩
        · exact Or.inl hsame
        · exact Or.inr ⟨e, List.mem_cons_of_mem _ hmem, hets, heac⟩
      · intro kv hkv
        rcases List.mem_cons.mp hkv with h | h
        · rw [h]; exact entryLexLE_trans hle hhd
        · exact hall kv h

/-- The eviction scan over a nonempty cache whose timestamps do not lie in
the future returns the key of an entry minimal in the
(createdAt, accessCount) lexicographic order. -/
lemma findLru_spec (now : Int) (cache : List (String × CacheEntry))
    (hne : cache ≠ [])
    (hts : ∀ kv ∈ cache, kv.2.timestamp ≤ now) :
    ∃ k e, (findLru now cache).lruKey = some k ∧ (k, e) ∈ cache ∧
      ∀ kv ∈ cache, entryLexLE (e.timestamp, e.accessCount)
        (kv.2.timestamp, kv.2.accessCount) := by
  match cache, hne with
  | hd :: tl, _ =>
    unfold findLru
    rw [List.foldl_cons]
    have hhd := hts hd (List.mem_cons_self _ _)
    have hstep : lruScanStep ⟨none, now, none⟩ hd =
        ⟨some hd.1, hd.2.timestamp, some hd.2.accessCount⟩ := by
      unfold lruScanStep
      rcases lt_or_eq_of_le hhd with h | h
      · rw [if_pos (Or.inl h)]
      · rw [if_pos (Or.inr ⟨h, by trivial⟩)]
    rw [hstep]
    obtain ⟨k', ts', ac', heq, hprov, hle, hall⟩ :=
      foldl_lruScan_from_some tl hd.1 hd.2.timestamp hd.2.accessCount
    rw [heq]
    rcases hprov with ⟨hk, hts', hac⟩ | ⟨e, hmem, hets, heac⟩
    · refine ⟨k', hd.2, rfl, ?_, ?_⟩
      · rw [hk]
        exact List.mem_cons_self _ _
      · intro kv hkv
        rcases List.mem_cons.mp hkv with h | h
        · rw [h]; exact entryLexLE_refl _
        · have hrest := hall kv h
          rw [hts', hac] at hrest
          exact hrest
    · refine ⟨k', e, rfl, List.mem_cons_of_mem _ hmem, ?_⟩
      intro kv hkv
      rw [hets, heac]
      rcases List.mem_cons.mp hkv with h | h
      · rw [h]; exact hle
      · exact hall kv h

/-- `evictLeastRecentlyUsed` on a nonempty cache with no future-dated
entries removes exactly one entry — one minimal in the
(createdAt, accessCount) order — and increments the eviction counter. -/
lemma evict_spec (now : Int) (st : CacheState)
    (hne : st.requestCache ≠ [])
    (hts : ∀ kv ∈ st.requestCache, kv.2.timestamp ≤ now) :
    ∃ k e, (k, e) ∈ st.requestCache ∧
      (∀ kv ∈ st.requestCache, entryLexLE (e.timestamp, e.accessCount)
        (kv.2.timestamp, kv.2.accessCount)) ∧
      evictLeastRecentlyUsed now st =
        { requestCache := jsDelete st.requestCache k,
          metrics :=
            { st.metrics with evictions := st.metrics.evictions + 1 } } ∧
      (evictLeastRecentlyUsed now st).requestCache.length + 1 =
        st.requestCache.length := by
  obtain ⟨k, e, hkey, hmem, hmin⟩ := findLru_spec now st.requestCache hne hts
  have heviction : evictLeastRecentlyUsed now st =
      { requestCache := jsDelete st.requestCache k,
        metrics :=
          { st.metrics with evictions := st.metrics.evictions + 1 } } := by
    unfold evictLeastRecentlyUsed
    rw [hkey]
  refine ⟨k, e, hmem, hmin, heviction, ?_⟩
  rw [heviction]
  obtain ⟨e', he'⟩ := jsGet_isSome_of_mem st.requestCache k e hmem
  exact length_jsDelete_of_get st.requestCache k e' he'

lemma length_jsSet_of_get {β : Type} (m : List (String × β))
    (k : String) (v v' : β) (h : jsGet m k = some v) :
    (jsSet m k v').length = m.length := by
  induction m with
  | nil => rw [jsGet_nil] at h; cases h
  | cons hd tl ih =>
    obtain ⟨a, b⟩ := hd
    rw [jsGet_cons] at h
    rw [jsSet_cons]
    by_cases hk : a = k
    · rw [if_pos hk]; simp
    · rw [if_neg hk] at h
      rw [if_neg hk]
      simp only [List.length_cons]
      rw [ih h]

lemma length_jsDelete_le {β : Type} (m : List (String × β))
    (k : String) : (jsDelete m k).length ≤ m.length := by
  induction m with
  | nil => simp [jsDelete]
  | cons hd tl ih =>
    obtain ⟨a, b⟩ := hd
    rw [jsDelete_cons]
    by_cases hk : a = k
    · rw [if_pos hk]; simp
    · rw [if_neg hk]
      simp only [List.length_cons]
      omega

lemma mem_of_jsGet {β : Type} (m : List (String × β)) (k : String)
    (v : β) (h : jsGet m k = some v) : (k, v) ∈ m := by
  induction m with
  | nil => rw [jsGet_nil] at h; cases h
  | cons hd tl ih =>
    obtain ⟨a, b⟩ := hd
    rw [jsGet_cons] at h
    by_cases hk : a = k
    · rw [if_pos hk] at h
      cases h
      rw [← hk]
      exact List.mem_cons_self _ _
    · rw [if_neg hk] at h
      exact List.mem_cons_of_mem _ (ih h)

lemma setCachedResponse_of_small (N : Nat) (now : Int) (key v : String)
    (st : CacheState) (hsmall : ¬ st.requestCache.length ≥ N) :
    setCachedResponse N now key v st =
      { requestCache := jsSet st.requestCache key ⟨v, now, 1⟩,
        metrics := st.metrics } := by
  unfold setCachedResponse
  rw [if_neg hsmall]

lemma setCachedResponse_of_full (N : Nat) (now : Int) (key v : String)
    (st : CacheState) (hfull : st.requestCache.length ≥ N) :
    setCachedResponse N now key v st =
      { requestCache :=
          jsSet (evictLeastRecentlyUsed now st).requestCache key ⟨v, now, 1⟩,
        metrics := (evictLeastRecentlyUsed now st).metrics } := by
  unfold setCachedResponse
  rw [if_pos hfull]

lemma getCachedResponse_absent (ttl now : Int) (key : String)
    (st : CacheState) (hget : jsGet st.requestCache key = none) :
    getCachedResponse ttl now key st =
      (none,
       { requestCache := st.requestCache,
         metrics :=
           { st.metrics with
               misses := st.metrics.misses + 1,
               totalRequests := st.metrics.totalRequests + 1 } }) := by
  unfold getCachedResponse
  simp only [hget]

lemma getCachedResponse_hit (ttl now : Int) (key : String)
    (st : CacheState) (cached : CacheEntry)
    (hget : jsGet st.requestCache key = some cached)
    (hfresh : now - cached.timestamp < ttl) :
    getCachedResponse ttl now key st =
      (some cached.response,
       { requestCache := jsSet st.requestCache key
           { cached with accessCount := cached.accessCount + 1 },
         metrics :=
           { st.metrics with
               hits := st.metrics.hits + 1,
               totalRequests := st.metrics.totalRequests + 1 } }) := by
  unfold getCachedResponse
  simp only [hget]
  rw [if_pos hfresh]

lemma getCachedResponse_expired (ttl now : Int) (key : String)
    (st : CacheState) (cached : CacheEntry)
    (hget : jsGet st.requestCache key = some cached)
    (hstale : ¬ now - cached.timestamp < ttl) :
    getCachedResponse ttl now key st =
      (none,
       { requestCache := jsDelete st.requestCache key,
         metrics :=
           { st.metrics with
               misses := st.metrics.misses + 1,
               totalRequests := st.metrics.totalRequests + 1 } }) := by
  unfold getCachedResponse
  simp only [hget]
  rw [if_neg hstale]

/-- One `setCachedResponse` step preserves the capacity bound and the
no-future-timestamps invariant, provided the capacity is at least 1. -/
lemma setCachedResponse_step (N : Nat) (now : Int) (key v : String)
    (st : CacheState) (hN : 1 ≤ N)
    (hlen : st.requestCache.length ≤ N)
    (hts : ∀ kv ∈ st.requestCache, kv.2.timestamp ≤ now) :
    (setCachedResponse N now key v st).requestCache.length ≤ N
    ∧ ∀ kv ∈ (setCachedResponse N now key v st).requestCache,
        kv.2.timestamp ≤ now := by
  by_cases hfull : st.requestCache.length ≥ N
  · rw [setCachedResponse_of_full N now key v st hfull]
    have hne : st.requestCache ≠ [] := by
      intro hnil
      rw [hnil] at hfull
      simp at hfull
      omega
    obtain ⟨k, e, _, _, heviction, hlen'⟩ := evict_spec now st hne hts
    constructor
    · show (jsSet (evictLeastRecentlyUsed now st).requestCache key
        ⟨v, now, 1⟩).length ≤ N
      have h1 := length_jsSet_le
        (evictLeastRecentlyUsed now st).requestCache key ⟨v, now, 1⟩
      omega
    · intro kv hkv
      replace hkv : kv ∈ jsSet (evictLeastRecentlyUsed now st).requestCache
          key ⟨v, now, 1⟩ := hkv
      rcases mem_jsSet _ _ _ kv hkv with h | h
      · rw [h]
      · rw [heviction] at h
        exact hts kv (mem_jsDelete _ _ kv h)
  · rw [setCachedResponse_of_small N now key v st hfull]
    constructor
    · show (jsSet st.requestCache key ⟨v, now, 1⟩).length ≤ N
      have h1 := length_jsSet_le st.requestCache key ⟨v, now, 1⟩
      omega
    · intro kv hkv
      replace hkv : kv ∈ jsSet st.requestCache key ⟨v, now, 1⟩ := hkv
      rcases mem_jsSet _ _ _ kv hkv with h | h
      · rw [h]
      · exact hts kv h

/-- One `getCachedResponse` step never grows the cache and keeps the
no-future-timestamps invariant. -/
lemma getCachedResponse_step (ttl : Int) (now : Int) (key : String)
    (st : CacheState)
    (hts : ∀ kv ∈ st.requestCache, kv.2.timestamp ≤ now) :
    (getCachedResponse ttl now key st).2.requestCache.length ≤
      st.requestCache.length
    ∧ ∀ kv ∈ (getCachedResponse ttl now key st).2.requestCache,
        kv.2.timestamp ≤ now := by
  cases hget : jsGet st.requestCache key with
  | none =>
    rw [getCachedResponse_absent ttl now key st hget]
    exact ⟨le_refl _, hts⟩
  | some cached =>
    by_cases hfresh : now - cached.timestamp < ttl
    · rw [getCachedResponse_hit ttl now key st cached hget hfresh]
      constructor
      · rw [length_jsSet_of_get st.requestCache key cached _ hget]
      · intro kv hkv
        rcases mem_jsSet _ _ _ kv hkv with h | h
        · rw [h]
          exact hts (key, cached) (mem_of_jsGet _ _ _ hget)
        · exact hts kv h
    · rw [getCachedResponse_expired ttl now key st cached hget hfresh]
      constructor
      · exact length_jsDelete_le st.requestCache key
      · intro kv hkv
        exact hts kv (mem_jsDelete _ _ kv hkv)

/-- The capacity bound is preserved along any time-sorted operation
sequence (capacity at least 1). -/
lemma runOps_inv (ttl : Int) (N : Nat) (hN : 1 ≤ N) :
    ∀ (ops : List CacheOp) (st : CacheState),
      st.requestCache.length ≤ N →
      (∀ kv ∈ st.requestCache, ∀ op ∈ ops, kv.2.timestamp ≤ opTime op) →
      List.Sorted (· ≤ ·) (ops.map opTime) →
      (runOps ttl N ops st).requestCache.length ≤ N := by
  intro ops
  induction ops with
  | nil => intro st hlen _ _; exact hlen
  | cons op rest ih =>
    intro st hlen hts hsorted
    rw [runOps, List.foldl_cons]
    simp only [List.map_cons, List.sorted_cons] at hsorted
    have hlater : ∀ t ∈ rest.map opTime, opTime op ≤ t := hsorted.1
    have htsop : ∀ kv ∈ st.requestCache, kv.2.timestamp ≤ opTime op := by
      intro kv hkv
      exact hts kv hkv op (List.mem_cons_self _ _)
    have hstep :
        (applyOp ttl N st op).requestCache.length ≤ N
        ∧ ∀ kv ∈ (applyOp ttl N st op).requestCache,
            kv.2.timestamp ≤ opTime op := by
      cases op with
      | putOp t k v =>
        exact setCachedResponse_step N t k v st hN hlen htsop
      | getOp t k =>
        have h := getCachedResponse_step ttl t k st htsop
        exact ⟨le_trans h.1 hlen, h.2⟩
    have hfuture : ∀ kv ∈ (applyOp ttl N st op).requestCache,
        ∀ op' ∈ rest, kv.2.timestamp ≤ opTime op' := by
      intro kv hkv op' hop'
      have h1 := hstep.2 kv hkv
      have h2 := hlater (opTime op') (List.mem_map_of_mem opTime hop')
      omega
    exact ih (applyOp ttl N st op) hstep.1 hfuture hsorted.2

/-- C6 counterexample: with configured capacity `N = 0`, a single put
leaves one entry in the cache (`evictLeastRecentlyUsed` finds nothing to
evict in an empty map and the insertion still happens), so
"`size <= N` at all times" fails as stated for every configured
capacity. -/
theorem cache_capacity_zero_counterexample :
    (runOps 300000 0 [CacheOp.putOp 5 "k" "v"]
        initialCacheState).requestCache.length = 1
    ∧ ¬ ((runOps 300000 0 [CacheOp.putOp 5 "k" "v"]
        initialCacheState).requestCache.length ≤ 0) := by
  constructor
  · rfl
  · decide

/-- C6 (amended): for every configured capacity `N ≥ 1` and every
time-ordered operation sequence the cache holds at most `N` entries; and a
put performed when the cache holds exactly `N ≥ 1` entries (all created no
later than the put) first evicts exactly one entry — one minimal in the
(createdAt, accessCount) lexicographic order — before inserting the new
entry, incrementing the global eviction counter. -/
theorem cache_capacity_and_eviction (ttl : Int) (N : Nat) :
    (∀ ops : List CacheOp, 1 ≤ N →
      List.Sorted (· ≤ ·) (ops.map opTime) →
      (runOps ttl N ops initialCacheState).requestCache.length ≤ N)
    ∧ (∀ (st : CacheState) (now : Int) (key v : String),
        st.requestCache.length = N → 1 ≤ N →
        (∀ kv ∈ st.requestCache, kv.2.timestamp ≤ now) →
        ∃ k e, (k, e) ∈ st.requestCache ∧
          (∀ kv ∈ st.requestCache, entryLexLE (e.timestamp, e.accessCount)
            (kv.2.timestamp, kv.2.accessCount)) ∧
          setCachedResponse N now key v st =
            { requestCache :=
                jsSet (jsDelete st.requestCache k) key ⟨v, now, 1⟩,
              metrics := { st.metrics with
                  evictions := st.metrics.evictions + 1 } }) := by
  constructor
  · intro ops hN hsorted
    refine runOps_inv ttl N hN ops initialCacheState ?_ ?_ hsorted
    · simp [initialCacheState]
    · intro kv hkv
      simp [initialCacheState] at hkv
  · intro st now key v hfull hN hts
    have hge : st.requestCache.length ≥ N := le_of_eq hfull.symm
    have hne : st.requestCache ≠ [] := by
      intro hnil
      rw [hnil] at hfull
      simp at hfull
      omega
    obtain ⟨k, e, hmem, hmin, heviction, _⟩ := evict_spec now st hne hts
    refine ⟨k, e, hmem, hmin, ?_⟩
    rw [setCachedResponse_of_full N now key v st hge, heviction]

/-- A one-entry cache state used to witness the eviction behaviour. -/
def exFullCache : CacheState :=
  ⟨[("a", ⟨"x", 0, 1⟩)], initialMetrics⟩

/-- Witness for C6: two sorted puts into a capacity-1 cache leave at most
one entry, and a put into the full one-entry cache evicts its minimal
entry while bumping the eviction counter. -/
theorem cache_capacity_and_eviction_witness :
    ((runOps 300000 1 [CacheOp.putOp 0 "a" "x", CacheOp.putOp 1 "b" "y"]
        initialCacheState).requestCache.length ≤ 1)
    ∧ (∃ k e, (k, e) ∈ exFullCache.requestCache ∧
        (∀ kv ∈ exFullCache.requestCache,
          entryLexLE (e.timestamp, e.accessCount)
            (kv.2.timestamp, kv.2.accessCount)) ∧
        setCachedResponse 1 1 "b" "y" exFullCache =
          { requestCache :=
              jsSet (jsDelete exFullCache.requestCache k) "b" ⟨"y", 1, 1⟩,
            metrics := { exFullCache.metrics with
                evictions := exFullCache.metrics.evictions + 1 } }) := by
  constructor
  · refine (cache_capacity_and_eviction 300000 1).1
      [CacheOp.putOp 0 "a" "x", CacheOp.putOp 1 "b" "y"] (by omega) ?_
    simp [opTime, List.sorted_cons]
  · refine (cache_capacity_and_eviction 300000 1).2 exFullCache 1 "b" "y"
      rfl (by omega) ?_
    intro kv hkv
    simp only [exFullCache, List.mem_singleton] at hkv
    rw [hkv]
    norm_num

/-- The final cache of a `setCachedResponse` always holds the fresh entry
under the written key. -/
lemma jsGet_setCachedResponse_self (N : Nat) (now : Int) (key v : String)
    (st : CacheState) :
    jsGet (setCachedResponse N now key v st).requestCache key =
      some ⟨v, now, 1⟩ := by
  by_cases hfull : st.requestCache.length ≥ N
  · rw [setCachedResponse_of_full N now key v st hfull]
    exact jsGet_jsSet_self _ _ _
  · rw [setCachedResponse_of_small N now key v st hfull]
    exact jsGet_jsSet_self _ _ _

/-- C7: a `put` followed by a `get` strictly within the TTL is a hit
returning the stored value, bumping the entry's access count to 2 and the
global hit and lookup counters; a `get` of an entry whose TTL has elapsed
is a miss that physically removes the stale entry; and with TTL 0 every
`get` (of a non-future-dated entry) is a miss. -/
theorem cache_ttl_roundtrip :
    (∀ (ttl : Int) (N : Nat) (st : CacheState) (key v : String)
        (now now' : Int), now' - now < ttl →
      getCachedResponse ttl now' key (setCachedResponse N now key v st) =
        (some v,
         { requestCache :=
             jsSet (setCachedResponse N now key v st).requestCache key
               ⟨v, now, 2⟩,
           metrics :=
             { (setCachedResponse N now key v st).metrics with
                 hits := (setCachedResponse N now key v st).metrics.hits + 1,
                 totalRequests :=
                   (setCachedResponse N now key v st).metrics.totalRequests
                     + 1 } }))
    ∧ (∀ (ttl : Int) (st : CacheState) (key : String) (now : Int)
        (e : CacheEntry), jsGet st.requestCache key = some e →
        now - e.timestamp ≥ ttl →
        (st.requestCache.map Prod.fst).Nodup →
        (getCachedResponse ttl now key st).1 = none
        ∧ (getCachedResponse ttl now key st).2.metrics.misses =
            st.metrics.misses + 1
        ∧ jsGet (getCachedResponse ttl now key st).2.requestCache key =
            none)
    ∧ (∀ (st : CacheState) (key : String) (now : Int),
        (∀ e : CacheEntry, jsGet st.requestCache key = some e →
          e.timestamp ≤ now) →
        (getCachedResponse 0 now key st).1 = none) := by
  refine ⟨?_, ?_, ?_⟩
  · intro ttl N st key v now now' hfresh
    have hget := jsGet_setCachedResponse_self N now key v st
    have := getCachedResponse_hit ttl now' key
      (setCachedResponse N now key v st) ⟨v, now, 1⟩ hget hfresh
    rw [this]
  · intro ttl st key now e hget hstale hnd
    have hrw := getCachedResponse_expired ttl now key st e hget
      (not_lt.mpr hstale)
    rw [hrw]
    refine ⟨rfl, rfl, ?_⟩
    exact jsGet_jsDelete_self st.requestCache key hnd
  · intro st key now hts
    cases hget : jsGet st.requestCache key with
    | none => rw [getCachedResponse_absent 0 now key st hget]
    | some e =>
      have hstale : ¬ now - e.timestamp < 0 := by
        have := hts e hget
        omega
      rw [getCachedResponse_expired 0 now key st e hget hstale]

/-- A one-entry cache state under key "k", for the C7 witness. -/
def exFullCacheK : CacheState :=
  ⟨[("k", ⟨"v", 0, 1⟩)], initialMetrics⟩

/-- Witness for C7: a concrete round trip at TTL 300000, a concrete
expired lookup, and a concrete TTL-0 miss. -/
theorem cache_ttl_roundtrip_witness :
    getCachedResponse 300000 10 "k"
        (setCachedResponse 100 0 "k" "v" initialCacheState) =
      (some "v",
       { requestCache :=
           jsSet (setCachedResponse 100 0 "k" "v"
             initialCacheState).requestCache "k" ⟨"v", 0, 2⟩,
         metrics :=
           { (setCachedResponse 100 0 "k" "v" initialCacheState).metrics with
               hits := (setCachedResponse 100 0 "k" "v"
                 initialCacheState).metrics.hits + 1,
               totalRequests := (setCachedResponse 100 0 "k" "v"
                 initialCacheState).metrics.totalRequests + 1 } })
    ∧ ((getCachedResponse 300000 300000 "k" exFullCacheK).1 = none
        ∧ (getCachedResponse 300000 300000 "k" exFullCacheK).2.metrics.misses
            = exFullCacheK.metrics.misses + 1
        ∧ jsGet (getCachedResponse 300000 300000 "k"
            exFullCacheK).2.requestCache "k" = none)
    ∧ (getCachedResponse 0 5 "k" exFullCacheK).1 = none := by
  refine ⟨?_, ?_, ?_⟩
  · exact cache_ttl_roundtrip.1 300000 100 initialCacheState "k" "v" 0 10
      (by norm_num)
  · refine cache_ttl_roundtrip.2.1 300000 exFullCacheK "k" 300000
      ⟨"v", 0, 1⟩ rfl (by norm_num) ?_
    simp [exFullCacheK]
  · refine cache_ttl_roundtrip.2.2 exFullCacheK "k" 5 ?_
    intro e he
    have : e = ⟨"v", 0, 1⟩ := by
      have hrw : jsGet exFullCacheK.requestCache "k" =
          some (⟨"v", 0, 1⟩ : CacheEntry) := rfl
      rw [hrw] at he
      cases he
      rfl
    rw [this]
    norm_num

/-- After a miss, the looked-up key is absent from the resulting cache
(it either was never there or was deleted as expired). -/
lemma getCachedResponse_miss_absent (ttl now : Int) (key : String)
    (st : CacheState)
    (hmiss : (getCachedResponse ttl now key st).1 = none)
    (hnd : (st.requestCache.map Prod.fst).Nodup) :
    jsGet (getCachedResponse ttl now key st).2.requestCache key = none := by
  cases hget : jsGet st.requestCache key with
  | none =>
    rw [getCachedResponse_absent ttl now key st hget]
    exact hget
  | some cached =>
    by_cases hfresh : now - cached.timestamp < ttl
    · have hres : (getCachedResponse ttl now key st).1 =
          some cached.response := by
        rw [getCachedResponse_hit ttl now key st cached hget hfresh]
      rw [hmiss] at hres
      exact Option.noConfusion hres
    · rw [getCachedResponse_expired ttl now key st cached hget hfresh]
      exact jsGet_jsDelete_self st.requestCache key hnd

/-- C10: when the cache misses and the provider dispatch fails, `callTool`
rethrows the failure and writes nothing to the cache: the state is exactly
the post-miss state and the request's cache key remains absent, so no
later identical request can observe a cached failure. -/
theorem failed_dispatch_leaves_cache_unchanged (ttl : Int) (N : Nat)
    (now : Int) (cacheKey : String) (e : DispatchError) (st : CacheState)
    (hmiss : (getCachedResponse ttl now cacheKey st).1 = none)
    (hnd : (st.requestCache.map Prod.fst).Nodup) :
    callToolDispatchStage ttl N now cacheKey (Except.error e) st =
      (Except.error (ToolError.dispatchFailed e),
        (getCachedResponse ttl now cacheKey st).2)
    ∧ jsGet (getCachedResponse ttl now cacheKey st).2.requestCache
        cacheKey = none := by
  constructor
  · unfold callToolDispatchStage
    have hp : getCachedResponse ttl now cacheKey st =
        (none, (getCachedResponse ttl now cacheKey st).2) := by
      rw [← hmiss]
    rw [hp]
  · exact getCachedResponse_miss_absent ttl now cacheKey st hmiss hnd

/-- Witness for C10: a failed dispatch against an empty cache returns the
error and leaves the key uncached. -/
theorem failed_dispatch_leaves_cache_unchanged_witness :
    callToolDispatchStage 300000 100 0 "deepseek:t:c"
        (Except.error DispatchError.providerUnavailable)
        initialCacheState =
      (Except.error (ToolError.dispatchFailed
          DispatchError.providerUnavailable),
        (getCachedResponse 300000 0 "deepseek:t:c" initialCacheState).2)
    ∧ jsGet (getCachedResponse 300000 0 "deepseek:t:c"
        initialCacheState).2.requestCache "deepseek:t:c" = none :=
  failed_dispatch_leaves_cache_unchanged 300000 100 0 "deepseek:t:c"
    DispatchError.providerUnavailable initialCacheState rfl (by decide)

lemma checkRateLimit_fresh (cfg : RateLimitConfig) (now : Int)
    (st : RateState) (cid : String) (hget : jsGet st cid = none) :
    checkRateLimit cfg now st cid = (true, jsSet st cid ⟨1, now⟩) := by
  unfold checkRateLimit
  simp only [hget]

lemma checkRateLimit_reset (cfg : RateLimitConfig) (now : Int)
    (st : RateState) (cid : String) (c : Nat) (w : Int)
    (hget : jsGet st cid = some ⟨c, w⟩)
    (hexp : now - w > cfg.rateLimitWindow) :
    checkRateLimit cfg now st cid = (true, jsSet st cid ⟨1, now⟩) := by
  unfold checkRateLimit
  simp only [hget]
  rw [if_pos hexp]

lemma checkRateLimit_denied (cfg : RateLimitConfig) (now : Int)
    (st : RateState) (cid : String) (c : Nat) (w : Int)
    (hget : jsGet st cid = some ⟨c, w⟩)
    (hin : now - w ≤ cfg.rateLimitWindow)
    (hc : c ≥ cfg.rateLimitRequests) :
    checkRateLimit cfg now st cid = (false, st) := by
  unfold checkRateLimit
  simp only [hget]
  rw [if_neg (not_lt.mpr hin), if_pos hc]

lemma checkRateLimit_admitted (cfg : RateLimitConfig) (now : Int)
    (st : RateState) (cid : String) (c : Nat) (w : Int)
    (hget : jsGet st cid = some ⟨c, w⟩)
    (hin : now - w ≤ cfg.rateLimitWindow)
    (hc : ¬ c ≥ cfg.rateLimitRequests) :
    checkRateLimit cfg now st cid = (true, jsSet st cid ⟨c + 1, w⟩) := by
  unfold checkRateLimit
  simp only [hget]
  rw [if_neg (not_lt.mpr hin), if_neg hc]

/-- Starting from a window `{count := c, windowStart := w}`, a run of
requests all landing inside that window admits exactly
`min n (limit - c)` of them. -/
lemma runRate_in_window (cfg : RateLimitConfig) (cid : String) :
    ∀ (times : List Int) (c : Nat) (w : Int) (st : RateState),
      jsGet st cid = some ⟨c, w⟩ →
      (∀ t ∈ times, t - w ≤ cfg.rateLimitWindow) →
      (runRateRequests cfg cid times st).1 =
        min times.length (cfg.rateLimitRequests - c) := by
  intro times
  induction times with
  | nil =>
    intro c w st hget htimes
    simp [runRateRequests]
  | cons t ts ih =>
    intro c w st hget htimes
    have ht := htimes t (List.mem_cons_self _ _)
    have hts : ∀ u ∈ ts, u - w ≤ cfg.rateLimitWindow := by
      intro u hu
      exact htimes u (List.mem_cons_of_mem _ hu)
    by_cases hc : c ≥ cfg.rateLimitRequests
    · have hstep := checkRateLimit_denied cfg t st cid c w hget ht hc
      simp only [runRateRequests, hstep]
      have hrest := ih c w st hget hts
      simp [hrest]
      omega
    · have hstep := checkRateLimit_admitted cfg t st cid c w hget ht hc
      simp only [runRateRequests, hstep]
      have hget' : jsGet (jsSet st cid ⟨c + 1, w⟩) cid =
          some ⟨c + 1, w⟩ := jsGet_jsSet_self _ _ _
      have hrest := ih (c + 1) w (jsSet st cid ⟨c + 1, w⟩) hget' hts
      simp [hrest]
      omega

/-- C8 (amended): for a fresh client and `limit ≥ 1`, a run of requests
all falling inside the first request's window admits exactly
`min (count) limit` of them; a window strictly older than `windowLength`
is reset to count 1 and the request admitted; within the window
(`now - windowStart ≤ windowLength`) a client at or above the limit is
denied without any state change.  (The code resets only when
`now - windowStart > windowLength`, strictly — not at `≥` as claimed.) -/
theorem rate_limit_window_spec (cfg : RateLimitConfig) (cid : String) :
    (∀ (t0 : Int) (rest : List Int) (st : RateState),
      jsGet st cid = none → 1 ≤ cfg.rateLimitRequests →
      (∀ t ∈ rest, t - t0 ≤ cfg.rateLimitWindow) →
      (runRateRequests cfg cid (t0 :: rest) st).1 =
        min (rest.length + 1) cfg.rateLimitRequests)
    ∧ (∀ (now : Int) (st : RateState) (c : Nat) (w : Int),
        jsGet st cid = some ⟨c, w⟩ →
        now - w > cfg.rateLimitWindow →
        checkRateLimit cfg now st cid = (true, jsSet st cid ⟨1, now⟩))
    ∧ (∀ (now : Int) (st : RateState) (c : Nat) (w : Int),
        jsGet st cid = some ⟨c, w⟩ →
        now - w ≤ cfg.rateLimitWindow → c ≥ cfg.rateLimitRequests →
        checkRateLimit cfg now st cid = (false, st)) := by
  refine ⟨?_, ?_, ?_⟩
  · intro t0 rest st hget hlim htimes
    have hstep := checkRateLimit_fresh cfg t0 st cid hget
    simp only [runRateRequests, hstep]
    have hget' : jsGet (jsSet st cid ⟨1, t0⟩) cid = some ⟨1, t0⟩ :=
      jsGet_jsSet_self _ _ _
    have hrest := runRate_in_window cfg cid rest 1 t0
      (jsSet st cid ⟨1, t0⟩) hget' htimes
    simp [hrest]
    omega
  · intro now st c w hget hexp
    exact checkRateLimit_reset cfg now st cid c w hget hexp
  · intro now st c w hget hin hc
    exact checkRateLimit_denied cfg now st cid c w hget hin hc

/-- C8 counterexample: with `windowStart = 0`, `windowLength = 10` and the
limit reached, a request at `now = 10` — where `now - windowStart ≥
windowLength` holds — is denied with no reset (the code's reset condition
is strict `>`); and with a configured limit of 0 a fresh client's first
request is still admitted, so "exactly `limit` admissions" also fails at
`limit = 0`. -/
theorem rate_limit_reset_boundary_counterexample :
    (checkRateLimit ⟨1, 10⟩ 10 [("c", ⟨1, 0⟩)] "c").1 = false
    ∧ (checkRateLimit ⟨0, 10⟩ 0 [] "c").1 = true := by
  constructor
  · decide
  · decide

/-- Witness for C8: three in-window requests against limit 2 admit exactly
2; a request after the window resets to count 1; an at-limit in-window
request is denied without state change. -/
theorem rate_limit_window_spec_witness :
    (runRateRequests ⟨2, 100⟩ "c" [0, 1, 2] []).1 = min 3 2
    ∧ checkRateLimit ⟨2, 100⟩ 200 [("c", ⟨2, 0⟩)] "c" =
        (true, jsSet [("c", ⟨2, 0⟩)] "c" ⟨1, 200⟩)
    ∧ checkRateLimit ⟨2, 100⟩ 60 [("c", ⟨2, 50⟩)] "c" =
        (false, [("c", ⟨2, 50⟩)]) := by
  refine ⟨?_, ?_, ?_⟩
  · exact (rate_limit_window_spec ⟨2, 100⟩ "c").1 0 [1, 2] [] rfl
      (by decide) (by intro t hti; fin_cases hti <;> decide)
  · exact (rate_limit_window_spec ⟨2, 100⟩ "c").2.1 200 [("c", ⟨2, 0⟩)]
      2 0 rfl (by decide)
  · exact (rate_limit_window_spec ⟨2, 100⟩ "c").2.2 60 [("c", ⟨2, 50⟩)]
      2 50 rfl (by decide) (by decide)

/-- The admission decision for a client depends only on that client's
window entry. -/
lemma checkRateLimit_fst_congr (cfg : RateLimitConfig) (now : Int)
    (st st' : RateState) (cid : String)
    (h : jsGet st cid = jsGet st' cid) :
    (checkRateLimit cfg now st cid).1 =
      (checkRateLimit cfg now st' cid).1 := by
  cases hd : jsGet st' cid with
  | none =>
    rw [checkRateLimit_fresh cfg now st cid (h.trans hd),
        checkRateLimit_fresh cfg now st' cid hd]
  | some d =>
    obtain ⟨c, w⟩ := d
    by_cases hexp : now - w > cfg.rateLimitWindow
    · rw [checkRateLimit_reset cfg now st cid c w (h.trans hd) hexp,
          checkRateLimit_reset cfg now st' cid c w hd hexp]
    · by_cases hc : c ≥ cfg.rateLimitRequests
      · rw [checkRateLimit_denied cfg now st cid c w (h.trans hd)
            (not_lt.mp hexp) hc,
          checkRateLimit_denied cfg now st' cid c w hd
            (not_lt.mp hexp) hc]
      · rw [checkRateLimit_admitted cfg now st cid c w (h.trans hd)
            (not_lt.mp hexp) hc,
          checkRateLimit_admitted cfg now st' cid c w hd
            (not_lt.mp hexp) hc]

/-- One client's rate-limit bookkeeping never touches another client's
window. -/
lemma jsGet_checkRateLimit_other (cfg : RateLimitConfig) (now : Int)
    (st : RateState) (a b : String) (hab : a ≠ b) :
    jsGet (checkRateLimit cfg now st a).2 b = jsGet st b := by
  cases hga : jsGet st a with
  | none =>
    rw [checkRateLimit_fresh cfg now st a hga]
    exact jsGet_jsSet_ne st a b ⟨1, now⟩ (Ne.symm hab)
  | some d =>
    obtain ⟨c, w⟩ := d
    by_cases hexp : now - w > cfg.rateLimitWindow
    · rw [checkRateLimit_reset cfg now st a c w hga hexp]
      exact jsGet_jsSet_ne st a b ⟨1, now⟩ (Ne.symm hab)
    · by_cases hc : c ≥ cfg.rateLimitRequests
      · rw [checkRateLimit_denied cfg now st a c w hga
          (not_lt.mp hexp) hc]
      · rw [checkRateLimit_admitted cfg now st a c w hga
          (not_lt.mp hexp) hc]
        exact jsGet_jsSet_ne st a b ⟨c + 1, w⟩ (Ne.symm hab)

/-- C9 (amended): the source's `callTool` calls `checkRateLimit()` with no
argument, so every inbound tool invocation — whatever its tool
name/caller identity — is rate-limited under the single constant key
`'default'`; the underlying `checkRateLimit` does keep explicitly-passed
distinct client ids fully independent. -/
theorem rate_key_constant_and_clients_independent :
    (∀ (cfg : RateLimitConfig) (now : Int) (n1 n2 : String)
        (tracker : RateState),
      callToolRateCheck cfg now n1 tracker =
        callToolRateCheck cfg now n2 tracker)
    ∧ (∀ (cfg : RateLimitConfig) (now now' : Int) (a b : String)
        (st : RateState), a ≠ b →
        jsGet (checkRateLimit cfg now st a).2 b = jsGet st b
        ∧ (checkRateLimit cfg now' ((checkRateLimit cfg now st a).2) b).1 =
            (checkRateLimit cfg now' st b).1) := by
  constructor
  · intro cfg now n1 n2 tracker
    rfl
  · intro cfg now now' a b st hab
    have hpreserve := jsGet_checkRateLimit_other cfg now st a b hab
    exact ⟨hpreserve, checkRateLimit_fst_congr cfg now' _ st b hpreserve⟩

/-- C9 counterexample: two inbound invocations with distinct tool/caller
identities share the `'default'` window — with limit 1, the first caller's
admission causes the second (distinct) caller to be denied. -/
theorem shared_rate_key_counterexample :
    (callToolRateCheck ⟨1, 100⟩ 0 "smart_advisor" []).1 = true
    ∧ (callToolRateCheck ⟨1, 100⟩ 1 "code_review"
        (callToolRateCheck ⟨1, 100⟩ 0 "smart_advisor" []).2).1 = false := by
  constructor
  · decide
  · decide

/-- Witness for C9: the rate stage ignores the tool name, and distinct
explicit client ids are independent on a concrete tracker. -/
theorem rate_key_constant_witness :
    callToolRateCheck ⟨10, 60000⟩ 5 "smart_advisor" [] =
      callToolRateCheck ⟨10, 60000⟩ 5 "code_review" []
    ∧ (jsGet (checkRateLimit ⟨10, 60000⟩ 5 [("b", ⟨3, 0⟩)] "a").2 "b" =
        jsGet [("b", (⟨3, 0⟩ : RateData))] "b"
        ∧ (checkRateLimit ⟨10, 60000⟩ 6
            ((checkRateLimit ⟨10, 60000⟩ 5 [("b", ⟨3, 0⟩)] "a").2) "b").1 =
          (checkRateLimit ⟨10, 60000⟩ 6 [("b", ⟨3, 0⟩)] "b").1) :=
  ⟨rate_key_constant_and_clients_independent.1 ⟨10, 60000⟩ 5
      "smart_advisor" "code_review" [],
   rate_key_constant_and_clients_independent.2 ⟨10, 60000⟩ 5 6 "a" "b"
      [("b", ⟨3, 0⟩)] (by decide)⟩

set_option maxRecDepth 40000 in
/-- C3 counterexample: with every provider failing (message
`"EPIPE-421"`), `consultAllAdvisors` still returns an ordinary successful
textual response — it has no failure path — and the formatted text does
not contain the failure reason anywhere (failed advisors are listed by
name only). -/
theorem fanout_all_fail_counterexample :
    ((consultAllAdvisors 300000 100 0 "t" "c" "smart_advisor"
        (fun _ => Except.error "EPIPE-421") initialCacheState).1.isOk
      = true)
    ∧ ¬ ("EPIPE-421".data <:+:
        ((consultAllAdvisors 300000 100 0 "t" "c" "smart_advisor"
          (fun _ => Except.error "EPIPE-421")
          initialCacheState).1.toOption.getD "").data) := by
  constructor
  · decide
  · decide

/-- C3 (amended): the fan-out result is always reported as an overall
success — even when every provider fails, the request never fails as a
whole; on a cache miss the returned text is the formatted rendering of one
collected outcome per configured model key (all four, in `MODELS` order),
each outcome carrying the response on success and the error message on
failure. -/
theorem fanout_collects_all_and_always_succeeds (ttl : Int) (N : Nat)
    (now : Int) (task context toolName : String)
    (outcomes : ModelKey → Except String String) (st : CacheState) :
    ((consultAllAdvisors ttl N now task context toolName outcomes
        st).1.isOk = true)
    ∧ ((getCachedResponse ttl now (fanoutCacheKey task context toolName)
          st).1 = none →
        (consultAllAdvisors ttl N now task context toolName outcomes
            st).1 =
          Except.ok (formatMultiAdvisorResponse (advisorResults outcomes)))
    ∧ (advisorResults outcomes).map (fun r => r.model) = modelKeys
    ∧ (∀ mk : ModelKey,
        ((advisorResultFor outcomes mk).success = true ↔
          (outcomes mk).isOk = true)
        ∧ (∀ s, outcomes mk = Except.ok s →
            advisorResultFor outcomes mk = ⟨mk, some s, none, true⟩)
        ∧ (∀ msg, outcomes mk = Except.error msg →
            advisorResultFor outcomes mk = ⟨mk, none, some msg, false⟩)) := by
  refine ⟨?_, ?_, ?_, ?_⟩
  · rcases hres : getCachedResponse ttl now
        (fanoutCacheKey task context toolName) st with ⟨o, st1⟩
    simp only [consultAllAdvisors]
    rw [hres]
    cases o with
    | some cached => rfl
    | none => rfl
  · intro hmiss
    rcases hres : getCachedResponse ttl now
        (fanoutCacheKey task context toolName) st with ⟨o, st1⟩
    rw [hres] at hmiss
    simp only at hmiss
    simp only [consultAllAdvisors]
    rw [hres, hmiss]
  · have hmodel : ∀ mk, (advisorResultFor outcomes mk).model = mk := by
      intro mk
      unfold advisorResultFor
      cases outcomes mk <;> rfl
    unfold advisorResults
    rw [List.map_map]
    have hfun : ((fun r => r.model) ∘ advisorResultFor outcomes) =
        fun mk : ModelKey => mk := by
      funext mk
      exact hmodel mk
    rw [hfun, List.map_id']
  · intro mk
    cases ho : outcomes mk with
    | ok r =>
      have hval : advisorResultFor outcomes mk =
          ⟨mk, some r, none, true⟩ := by
        unfold advisorResultFor
        rw [ho]
      refine ⟨?_, ?_, ?_⟩
      · rw [hval]
        exact Iff.rfl
      · intro s hs
        cases hs
        exact hval
      · intro msg hmsg
        exact Except.noConfusion hmsg
    | error e =>
      have hval : advisorResultFor outcomes mk =
          ⟨mk, none, some e, false⟩ := by
        unfold advisorResultFor
        rw [ho]
      refine ⟨?_, ?_, ?_⟩
      · rw [hval]
        exact Iff.rfl
      · intro s hs
        exact Except.noConfusion hs
      · intro msg hmsg
        cases hmsg
        exact hval

/-- A mixed outcome assignment: Google fails, the rest answer. -/
def exOutcomes : ModelKey → Except String String := fun mk =>
  match mk with
  | .google => .error "boom"
  | _ => .ok "fine"

/-- Witness for C3: with one provider failing, the fan-out still reports
success, the text is the formatted collection of all four outcomes, and
the failed provider's entry carries its error message. -/
theorem fanout_witness :
    ((consultAllAdvisors 300000 100 0 "t" "c" "code_review" exOutcomes
        initialCacheState).1.isOk = true)
    ∧ (consultAllAdvisors 300000 100 0 "t" "c" "code_review" exOutcomes
        initialCacheState).1 =
      Except.ok (formatMultiAdvisorResponse (advisorResults exOutcomes))
    ∧ advisorResultFor exOutcomes ModelKey.google =
      ⟨ModelKey.google, none, some "boom", false⟩ :=
  ⟨(fanout_collects_all_and_always_succeeds 300000 100 0 "t" "c"
      "code_review" exOutcomes initialCacheState).1,
   (fanout_collects_all_and_always_succeeds 300000 100 0 "t" "c"
      "code_review" exOutcomes initialCacheState).2.1 rfl,
   ((fanout_collects_all_and_always_succeeds 300000 100 0 "t" "c"
      "code_review" exOutcomes initialCacheState).2.2.2
      ModelKey.google).2.2 "boom" rfl⟩

end MCPSmart
